import Mathlib

/-! Verification of the bazaar "check" subsystem specification

Shallow embedding of the plugin-check engine of the SiYuan bazaar repository:

* `stripJSONComments` — the JSONC comment stripper of
  `actions/check/plugin_analysis.go` (function `stripJSONComments`),
  translated byte-for-byte from the Go loop into mutually recursive
  state functions (normal mode / in-string mode / line-comment skip /
  block-comment skip).  Go strings are modelled as `List Char`.
* `resolveEntryFileLocal` — the entry-file resolver of
  `actions/check/plugin_analysis.go`, over an abstract repository tree
  that supplies the parse results of `tsconfig.json` / `package.json`
  and an existence oracle for the probe requests.
* `hasOnloadMethod` — the lifecycle-hook detector of
  `actions/check/plugin-analyzer/analyze.mjs`, over a model of the
  TypeScript AST shaped by the relevant node kinds.
* the result emitters of the analyzer variants.
-/

namespace Bazaar

/-! Section: comment-aware config parser (`stripJSONComments`)

The Go loop keeps a cursor `i` and a flag `inString`.  The translation
splits the loop into one function per mode; each function receives the
suffix of the input that starts at the cursor and returns the bytes the
remaining iterations write.

Go source (`actions/check/plugin_analysis.go`):
- normal mode: `"` enters string mode; `//` skips to (not including)
  the next newline; `/*` enters block-comment skipping; any other byte
  is copied.
- string mode: every byte is copied; `\` additionally copies the next
  byte (if any) without interpreting it; an unescaped `"` returns to
  normal mode.
- block comment: `i += 2`, then `for i+1 < len(src) && !(src[i] == '*'
  && src[i+1] == '/') { i++ }`, then `if i+1 < len(src) { i += 2 }`.
  Note the loop guard `i+1 < len(src)`: when the comment is
  unterminated the loop stops with `i` at the final byte, which the
  outer loop then processes (and copies) as an ordinary byte.
-/

mutual

/-- Normal (outside-string) mode of the Go loop of `stripJSONComments`. -/
def stripJC : List Char → List Char
  | [] => []
  | '"' :: rest => '"' :: stripInString rest
  | '/' :: '/' :: rest => stripLine rest
  | '/' :: '*' :: rest => stripBlock rest
  | c :: rest => c :: stripJC rest

/-- In-string mode of the Go loop (`inString == true`): copy every
byte; after a backslash also copy the following byte unconditionally;
an unescaped quote returns to normal mode. -/
def stripInString : List Char → List Char
  | [] => []
  | '\\' :: [] => ['\\']
  | '\\' :: d :: rest => '\\' :: d :: stripInString rest
  | '"' :: rest => '"' :: stripJC rest
  | c :: rest => c :: stripInString rest

/-- Line-comment skip: `for i < len(src) && src[i] != '\n' { i++ }`.
The newline itself is not consumed by the skip loop; the outer loop
then copies it as an ordinary byte. -/
def stripLine : List Char → List Char
  | [] => []
  | '\n' :: rest => '\n' :: stripJC rest
  | _ :: rest => stripLine rest

/-- Block-comment skip, applied to the suffix after the `/*` opener.
`'*' :: '/' :: rest` ends the comment; while at least two bytes remain
the cursor advances; with at most one byte left the skip loop stops and
the outer loop processes that byte as an ordinary byte — for a single
remaining byte every outer-loop case copies it verbatim, so the
residue is returned unchanged. -/
def stripBlock : List Char → List Char
  | '*' :: '/' :: rest => stripJC rest
  | _ :: d :: rest => stripBlock (d :: rest)
  | l => l

end

/-- Function `stripJSONComments` of `actions/check/plugin_analysis.go`
(Go strings modelled as `List Char`). -/
def stripJSONComments (src : List Char) : List Char :=
  stripJC src

example : stripJSONComments "a // x\nb".toList = "a \nb".toList := by decide
example : stripJSONComments "a/*x*/b".toList = "ab".toList := by decide
example : stripJSONComments "\"a//b\"".toList = "\"a//b\"".toList := by decide
example : stripJSONComments "/*x".toList = "x".toList := by decide
example : stripJSONComments "/*".toList = "".toList := by decide
example : stripJSONComments "\"a\\\"//\"c".toList = "\"a\\\"//\"c".toList := by decide

/-! Subsection: comment-free inputs (formalising the hypothesis of spec §4.1 /
§8: "already-comment-free" text, i.e. text containing no `//` line
comment and no `/* */` block comment outside string literals, with
string boundaries tracked through escaped quotes and backslashes). -/

mutual

/-- No comment opener occurs outside a string literal (text mode). -/
def commentFree : List Char → Bool
  | [] => true
  | '"' :: rest => commentFreeStr rest
  | '/' :: '/' :: _ => false
  | '/' :: '*' :: _ => false
  | _ :: rest => commentFree rest

/-- No comment opener occurs after the current string literal ends;
inside the literal an escaping backslash protects the following byte. -/
def commentFreeStr : List Char → Bool
  | [] => true
  | '\\' :: [] => true
  | '\\' :: _ :: rest => commentFreeStr rest
  | '"' :: rest => commentFree rest
  | _ :: rest => commentFreeStr rest

end

/-- Interior of a well-formed string literal: no unescaped `"`, no
dangling final backslash; escaped quotes `\"` and escaped backslashes
`\\` (indeed `\` followed by any byte) are allowed. -/
def validBody : List Char → Bool
  | [] => true
  | '\\' :: [] => false
  | '\\' :: _ :: rest => validBody rest
  | '"' :: _ => false
  | _ :: rest => validBody rest

/-- On comment-free text every mode of the stripper is the identity
(the comment-skipping modes are unreachable, their statements are
trivial). -/
theorem strip_modes_id :
    (∀ l : List Char, commentFree l = true → stripJC l = l) ∧
    (∀ _l : List Char, True) ∧
    (∀ _l : List Char, True) ∧
    (∀ l : List Char, commentFreeStr l = true → stripInString l = l) := by
  refine stripJC.mutual_induct
    (motive_1 := fun l => commentFree l = true → stripJC l = l)
    (motive_2 := fun _ => True)
    (motive_3 := fun _ => True)
    (motive_4 := fun l => commentFreeStr l = true → stripInString l = l)
    ?_ ?_ ?_ ?_ ?_ ?_ ?_ ?_ ?_ ?_ ?_ ?_ ?_ ?_ ?_ ?_
  all_goals intros
  all_goals try trivial
  all_goals simp_all [stripJC, stripInString, commentFree, commentFreeStr]

/-- Once the stripper has entered a string literal, it copies the
literal's interior and its closing quote verbatim and resumes normal
mode behind it. -/
theorem stripInString_copies (s : List Char) : ∀ t : List Char, validBody s = true →
    stripInString (s ++ '"' :: t) = s ++ '"' :: stripJC t := by
  induction s using validBody.induct <;> intro t h
  case case5 c rest h1 h2 h3 ih =>
    have hc : ¬ c = '\\' := by
      intro hcc
      cases rest with
      | nil => exact h1 hcc rfl
      | cons d r => exact h2 d r hcc rfl
    simp_all [stripInString, validBody]
  all_goals simp_all [stripInString, validBody]

/-! Section: entry-file resolver (`resolveEntryFileLocal`)

`resolveEntryFileLocal` of `actions/check/plugin_analysis.go` reads
`tsconfig.json` (through `stripJSONComments` and `json.Unmarshal`) and
`package.json`, and probes candidate files with `os.Stat`.  The
repository tree is abstracted by the outcomes of those three
capabilities: the parse result of `tsconfig.json` (`none` when the
file is absent or `json.Unmarshal` fails), an existence oracle over
repo-relative paths for the `os.Stat` probes, and the parse result of
`package.json`'s `main` field (`none` when absent or unparseable;
`some m` with the decoded value otherwise, possibly `""`). -/

/-- The two tsconfig fields `resolveEntryFileLocal` decodes:
`files []string` and `include []string` (absent JSON fields decode to
nil slices, i.e. `[]`). -/
structure TsConfig where
  files : List String
  includes : List String
deriving DecidableEq, Repr

/-- Abstract repository tree: outcomes of the resolver's three
filesystem capabilities. -/
structure RepoTree where
  tsconfig : Option TsConfig
  fileExists : String → Bool
  pkgMain : Option String

/-- Go `strings.IndexAny(dir, "*?{") >= 0` followed by `dir = dir[:idx]`:
keep the prefix before the first glob metacharacter. -/
def cutGlob (s : List Char) : List Char :=
  s.takeWhile (fun c => !(c == '*' || c == '?' || c == '\x7b'))

/-- Go `strings.TrimRight(dir, "/\\")`. -/
def trimRightSeps (s : List Char) : List Char :=
  (s.reverse.dropWhile (fun c => c == '/' || c == '\\')).reverse

/-- Go `strings.TrimPrefix(dir, "./")` (removes at most one occurrence). -/
def trimDotSlash : List Char → List Char
  | '.' :: '/' :: rest => rest
  | s => s

/-- The directory the include step derives from the first include
pattern: cut at the first `*`, `?` or `\x7b`, trim trailing `/` and
`\`, trim a leading `./`. -/
def includeDirOf (inc : String) : String :=
  ⟨trimDotSlash (trimRightSeps (cutGlob inc.data))⟩

/-- The `for _, candidate := range ...` loop body: return the first
candidate the existence oracle (`os.Stat`) accepts. -/
def firstExisting (stat : String → Bool) : List String → Option String
  | [] => none
  | c :: cs => if stat c then some c else firstExisting stat cs

/-- The include step of `resolveEntryFileLocal` (lines 112–126): from
the first include pattern derive a directory; when it is non-empty,
probe `<dir>/index.ts` then `<dir>/main.ts`; `none` means the step
yields nothing and resolution falls through. -/
def includeStepResult (stat : String → Bool) (cfg : TsConfig) : Option String :=
  match cfg.includes with
  | [] => none
  | inc :: _ =>
    let dir := includeDirOf inc
    if dir = "" then none
    else firstExisting stat [dir ++ "/index.ts", dir ++ "/main.ts"]

/-- The fixed fallback path; the constant `FILE_PATH_INDEX_JS` is
declared outside the `check` sources. Modelled from the spec: the
fixed fallback is `index.js` (§4.2 step 4), as also returned literally
by the `analyze.mjs` resolver variant. -/
def FILE_PATH_INDEX_JS : String := "index.js"

/-- Steps 2–3 of `resolveEntryFileLocal`: `package.json → main`, then
the fixed fallback. -/
def resolveFromPackage (t : RepoTree) : String :=
  match t.pkgMain with
  | some m => if m ≠ "" then m else FILE_PATH_INDEX_JS
  | none => FILE_PATH_INDEX_JS

/-- Function `resolveEntryFileLocal` of `actions/check/plugin_analysis.go`:
`tsconfig.json → files[0]`; else the include-directory probes; else
`package.json → main`; else `index.js`. -/
def resolveEntryFileLocal (t : RepoTree) : String :=
  match t.tsconfig with
  | some cfg =>
    match cfg.files with
    | f :: _ => f
    | [] =>
      match includeStepResult t.fileExists cfg with
      | some c => c
      | none => resolveFromPackage t
  | none => resolveFromPackage t

/-- The include step exactly as claim C3 words it (a refinement
reference point, to be compared with the code's step). Modelled from
the spec: take the first include pattern, strip the portion from the
first `*`, `?` or `\x7b` onward and any trailing path separators —
nothing else — then probe `<dir>/index.ts` then `<dir>/main.ts` and
return the first that exists. -/
def includeStepClaim (stat : String → Bool) (cfg : TsConfig) : Option String :=
  match cfg.includes with
  | [] => none
  | inc :: _ =>
    let dir : String := ⟨trimRightSeps (cutGlob inc.data)⟩
    firstExisting stat [dir ++ "/index.ts", dir ++ "/main.ts"]

example : includeDirOf "./src/**/*.ts" = "src" := by decide
example : includeDirOf "src/" = "src" := by decide
example : includeDirOf "*" = "" := by decide

/-! Section: lifecycle-hook detector (`hasOnloadMethod`)

`hasOnloadMethod` of `actions/check/plugin-analyzer/analyze.mjs` (also
embedded in `plugin_analysis.go`) walks the TypeScript AST:

```
function hasOnloadMethod(node) \x7b
    if (ts.isMethodDeclaration(node)) \x7b
        const name = node.name;
        if (ts.isIdentifier(name) && name.text === 'onload') \x7b
            return true;
        \x7d
    \x7d
    return ts.forEachChild(node, hasOnloadMethod) === true;
\x7d
```

The AST is modelled by the node kinds the detector distinguishes.  A
node carries its `ts.SyntaxKind`, its property name (for member
declarations; `ts.isIdentifier(node.name)` distinguishes a plain
identifier from a string/numeric literal or computed name), an `async`
modifier flag, and the child list `ts.forEachChild` iterates over.
Subtrees of a computed property name, being visited by
`ts.forEachChild`, can be placed among the children. -/

inductive SyntaxKind where
  | methodDeclaration
  | propertyAssignment
  | propertyDeclaration
  | functionExpression
  | arrowFunction
  | identifier
  | stringLiteral
  | classDeclaration
  | objectLiteralExpression
  | sourceFile
  | other
deriving DecidableEq, Repr

/-- A member declaration's name node, as `ts.isIdentifier`
classifies it. -/
inductive PropName where
  | ident (text : String)
  | strLit (text : String)
  | numLit (text : String)
  | computed
deriving DecidableEq, Repr

mutual

inductive TsNode where
  | mk (kind : SyntaxKind) (name : Option PropName) (isAsync : Bool) (children : TsForest)

inductive TsForest where
  | nil
  | cons (head : TsNode) (tail : TsForest)

end

/-- Test `ts.isMethodDeclaration(node)`. -/
def isMethodDeclarationNode : TsNode → Bool
  | .mk kind _ _ _ => kind == SyntaxKind.methodDeclaration

/-- Test `ts.isIdentifier(name) && name.text === 'onload'` (with `name =
node.name`; a missing name yields false). -/
def isOnloadIdentName : Option PropName → Bool
  | some (PropName.ident t) => t == "onload"
  | _ => false

mutual

/-- Function `hasOnloadMethod` of `analyze.mjs`: true on a method declaration
whose name is the identifier `onload`, else the disjunction over the
children (`ts.forEachChild(node, hasOnloadMethod) === true`). -/
def hasOnloadMethod : TsNode → Bool
  | .mk kind name _ cs =>
    (kind == SyntaxKind.methodDeclaration && isOnloadIdentName name)
    || forEachChildHasOnload cs

/-- First-truthy-result traversal of the child list. -/
def forEachChildHasOnload : TsForest → Bool
  | .nil => false
  | .cons c cs => hasOnloadMethod c || forEachChildHasOnload cs

end

mutual

/-- The names of all method-declaration nodes of a tree, in pre-order
(an observation function used to state what the detector matches). -/
def methodNames : TsNode → List (Option PropName)
  | .mk kind name _ cs =>
    (if kind == SyntaxKind.methodDeclaration then [name] else []) ++ forestMethodNames cs

def forestMethodNames : TsForest → List (Option PropName)
  | .nil => []
  | .cons c cs => methodNames c ++ forestMethodNames cs

end

/-- A function-valued expression (`function` or arrow, of either
asyncness). -/
def isFunctionValue : TsNode → Bool
  | .mk kind _ _ _ => kind == SyntaxKind.functionExpression || kind == SyntaxKind.arrowFunction

/-- Whether some direct child is a function value (the initializer of
a property). -/
def forestHasFunctionValue : TsForest → Bool
  | .nil => false
  | .cons c cs => isFunctionValue c || forestHasFunctionValue cs

mutual

/-- Modelled from the spec (§4.5): the detector as the claim words it —
a "method declaration" covers standard method syntax *or an assignment
of a function value to a same-named property* (class property or
object-literal property assignment), including the asynchronous form
of either, with name exactly `onload`. -/
def specHookDetect : TsNode → Bool
  | .mk kind name _ cs =>
    (kind == SyntaxKind.methodDeclaration && isOnloadIdentName name)
    || ((kind == SyntaxKind.propertyAssignment || kind == SyntaxKind.propertyDeclaration)
        && isOnloadIdentName name && forestHasFunctionValue cs)
    || specHookForest cs

def specHookForest : TsForest → Bool
  | .nil => false
  | .cons c cs => specHookDetect c || specHookForest cs

end

/-- Characterisation: `ts.isIdentifier(name) && name.text === 'onload'` holds exactly
for the identifier name node with text `onload`. -/
theorem isOnloadIdentName_iff (name : Option PropName) :
    isOnloadIdentName name = true ↔ name = some (PropName.ident "onload") := by
  cases name with
  | none => simp [isOnloadIdentName]
  | some p => cases p <;> simp [isOnloadIdentName]

mutual

/-- The detector fires exactly when some method-declaration node of
the tree has the identifier name `onload`. -/
theorem hasOnload_iff_node : (n : TsNode) →
    (hasOnloadMethod n = true ↔ some (PropName.ident "onload") ∈ methodNames n)
  | .mk kind name a cs => by
    have hf := hasOnload_iff_forest cs
    by_cases hk : kind == SyntaxKind.methodDeclaration
    · simp [hasOnloadMethod, methodNames, hk, hf, isOnloadIdentName_iff]
      exact or_congr eq_comm Iff.rfl
    · simp [hasOnloadMethod, methodNames, hk, hf, isOnloadIdentName_iff]

/-- Forest version of `hasOnload_iff_node`. -/
theorem hasOnload_iff_forest : (f : TsForest) →
    (forEachChildHasOnload f = true ↔ some (PropName.ident "onload") ∈ forestMethodNames f)
  | .nil => by simp [forEachChildHasOnload, forestMethodNames]
  | .cons c cs => by
    have h1 := hasOnload_iff_node c
    have h2 := hasOnload_iff_forest cs
    simp [forEachChildHasOnload, forestMethodNames, h1, h2]

end

/-! Section: result and error protocol

The analyzer scripts always write one JSON object to stdout.  The
emitted objects are modelled as structures; the parse stage
(`ts.createSourceFile` inside `try`, or a stdin failure) is abstracted
by an `Except` outcome. -/

/-- Output object of the stdin analyzer variant (the `analyze.mjs`
embedded in `plugin_analysis.go`): `\x7b has_onload, pass \x7d`, or
`\x7b error, has_onload: false, pass: false \x7d`. -/
structure StdinOutput where
  has_onload : Bool
  pass : Bool
  error : Option String
deriving DecidableEq, Repr

/-- Handler `process.stdin.on('end', ...)` handler: parse the source, run
the detector, emit `pass: hasOnload`; the `catch` branch emits
`error` with `has_onload: false, pass: false`. -/
def stdinEndHandler (parseOutcome : Except String TsNode) : StdinOutput :=
  match parseOutcome with
  | .ok sourceFile =>
    { has_onload := hasOnloadMethod sourceFile
      pass := hasOnloadMethod sourceFile
      error := none }
  | .error msg => { has_onload := false, pass := false, error := some msg }

/-- The `process.stdin.on('error', ...)` handler. -/
def stdinErrorHandler (msg : String) : StdinOutput :=
  { has_onload := false, pass := false, error := some msg }

/-- Output object of the remote-fetch `analyze.mjs` variant:
`\x7b entryFile, hasOnload, pass \x7d`, or `\x7b error, entryFile,
hasOnload: false, pass: false \x7d`. -/
structure MainOutput where
  entryFile : String
  hasOnload : Bool
  pass : Bool
  error : Option String
deriving DecidableEq, Repr

/-- Function `main()` of the remote-fetch `analyze.mjs`: on success emit
`pass: hasOnload`; the `catch` branch emits the error with the
entry file resolved so far and `hasOnload: false, pass: false`. -/
def mainEmit (entryFile : String) (outcome : Except String TsNode) : MainOutput :=
  match outcome with
  | .ok sourceFile =>
    { entryFile := entryFile
      hasOnload := hasOnloadMethod sourceFile
      pass := hasOnloadMethod sourceFile
      error := none }
  | .error msg =>
    { entryFile := entryFile, hasOnload := false, pass := false, error := some msg }

/-- A source position reported by the detector (1-based line and
column). -/
structure SourcePosition where
  file : String
  line : Nat
  column : Nat
deriving DecidableEq, Repr

/-- The full `AnalysisResult` JSON object of the whole-project
analyzer (§3; field names `has_onload`, `pass`, `entry_file`,
`onload_file`, `onload_line`, `onload_column`, `error`). -/
structure AnalysisResult where
  has_onload : Bool
  pass : Bool
  entry_file : String
  onload_file : Option String
  onload_line : Option Nat
  onload_column : Option Nat
  error : Option String
deriving DecidableEq, Repr

/-- Modelled from the spec: the result emission of the whole-project
analyzer variant (the `analyze.mjs` invoked by `checkPluginCode` of
`plugin_analysis.go` with a cloned directory, whose stdout carries
`onload_file` / `onload_line` / `onload_column`) is not under the
sources; only its Go caller is.  Per §3/§4.5/§6: on a match the result
carries `has_onload: true`, `pass: hasOnload` and the position of the
first match; on a clean negative `has_onload: false` with no location;
on an error the `error` field with `has_onload: false, pass: false`
and no location. -/
def emitResult (entryFile : String) (outcome : Except String (Option SourcePosition)) :
    AnalysisResult :=
  match outcome with
  | .ok (some pos) =>
    { has_onload := true
      pass := true
      entry_file := entryFile
      onload_file := some pos.file
      onload_line := some pos.line
      onload_column := some pos.column
      error := none }
  | .ok none =>
    { has_onload := false
      pass := false
      entry_file := entryFile
      onload_file := none
      onload_line := none
      onload_column := none
      error := none }
  | .error msg =>
    { has_onload := false
      pass := false
      entry_file := entryFile
      onload_file := none
      onload_line := none
      onload_column := none
      error := some msg }

/-! Section: concrete example trees -/

/-- A source file with a class whose only `onload` is an arrow
function assigned to a property named `onload`
(`class Plugin \x7b onload = () => \x7b\x7d \x7d`). -/
def propertyOnloadTree : TsNode :=
  .mk .sourceFile none false
    (.cons (.mk .classDeclaration (some (.ident "Plugin")) false
      (.cons (.mk .propertyDeclaration (some (.ident "onload")) false
        (.cons (.mk .arrowFunction none false .nil) .nil)) .nil)) .nil)

/-- A source file with a class whose only `onload` member is a method
declared with a string-literal name (`class Plugin \x7b "onload"()
\x7b\x7d \x7d`). -/
def strLitOnloadTree : TsNode :=
  .mk .sourceFile none false
    (.cons (.mk .classDeclaration (some (.ident "Plugin")) false
      (.cons (.mk .methodDeclaration (some (.strLit "onload")) false .nil) .nil)) .nil)

/-! Section: claims -/

/-- C1, counterexample: on a tree whose only `onload` is a function
value assigned to an `onload` property, the detector described by the
spec fires, but `hasOnloadMethod` — which tests
`ts.isMethodDeclaration` only — reports false. -/
theorem hasOnloadMethod_misses_property_function_assignment :
    specHookDetect propertyOnloadTree = true ∧
    hasOnloadMethod propertyOnloadTree = false := by
  exact ⟨rfl, rfl⟩

/-- C1 (amended): the detector reports a match if and only if the tree
contains a method-declaration node — standard method syntax,
synchronous or asynchronous — whose name is the plain identifier
`onload`; a function value assigned to a same-named property is not a
method declaration and is not matched. -/
theorem hasOnloadMethod_iff_onload_ident_methodDecl (n : TsNode) :
    hasOnloadMethod n = true ↔ some (PropName.ident "onload") ∈ methodNames n :=
  hasOnload_iff_node n

/-- C10: the detector matches only method declarations whose name node
is a plain identifier: whenever no method-declaration node of the tree
is named by the identifier `onload` — in particular when the only
`onload` member bears a string-literal or computed name — it reports
false. -/
theorem hasOnloadMethod_requires_ident_name (n : TsNode)
    (h : some (PropName.ident "onload") ∉ methodNames n) :
    hasOnloadMethod n = false := by
  cases hb : hasOnloadMethod n with
  | false => rfl
  | true => exact absurd ((hasOnload_iff_node n).mp hb) h

/-- C10 witness: the string-literal-named `"onload"() \x7b\x7d` method
is not matched. -/
theorem hasOnloadMethod_requires_ident_name_witness :
    some (PropName.ident "onload") ∉ methodNames strLitOnloadTree ∧
    hasOnloadMethod strLitOnloadTree = false :=
  ⟨by decide, hasOnloadMethod_requires_ident_name strLitOnloadTree (by decide)⟩

/-- C2: in the whole-project analyzer's result the location fields
`onload_file` / `onload_line` / `onload_column` are present exactly
when `has_onload` is true, and on a match they carry the position of
the match. -/
theorem emitResult_location_iff_has_onload (e : String)
    (o : Except String (Option SourcePosition)) :
    ((emitResult e o).onload_file.isSome = (emitResult e o).has_onload ∧
     (emitResult e o).onload_line.isSome = (emitResult e o).has_onload ∧
     (emitResult e o).onload_column.isSome = (emitResult e o).has_onload) ∧
    (∀ pos : SourcePosition, o = Except.ok (some pos) →
      (emitResult e o).onload_file = some pos.file ∧
      (emitResult e o).onload_line = some pos.line ∧
      (emitResult e o).onload_column = some pos.column) := by
  rcases o with msg | op
  · simp [emitResult]
  · rcases op with _ | pos <;> simp [emitResult]

/-- C2 witness at a concrete match position. -/
theorem emitResult_location_iff_has_onload_witness :
    (emitResult "src/index.ts" (Except.ok (some ⟨"src/main.ts", 3, 5⟩))).onload_file
        = some "src/main.ts" ∧
    (emitResult "src/index.ts" (Except.ok (some ⟨"src/main.ts", 3, 5⟩))).onload_line = some 3 ∧
    (emitResult "src/index.ts" (Except.ok (some ⟨"src/main.ts", 3, 5⟩))).onload_column = some 5 :=
  (emitResult_location_iff_has_onload "src/index.ts"
    (Except.ok (some ⟨"src/main.ts", 3, 5⟩))).2 ⟨"src/main.ts", 3, 5⟩ rfl

/-- C9: every result any analyzer variant emits — success, clean
negative, or error path — satisfies `pass = has_onload`. -/
theorem analyzer_pass_eq_has_onload :
    (∀ o : Except String TsNode, (stdinEndHandler o).pass = (stdinEndHandler o).has_onload) ∧
    (∀ msg : String, (stdinErrorHandler msg).pass = (stdinErrorHandler msg).has_onload) ∧
    (∀ (e : String) (o : Except String TsNode), (mainEmit e o).pass = (mainEmit e o).hasOnload) ∧
    (∀ (e : String) (o : Except String (Option SourcePosition)),
      (emitResult e o).pass = (emitResult e o).has_onload) := by
  refine ⟨fun o => ?_, fun msg => rfl, fun e o => ?_, fun e o => ?_⟩
  · cases o <;> rfl
  · cases o <;> rfl
  · rcases o with msg | op
    · rfl
    · rcases op with _ | pos <;> rfl

/-- C4: a parsed tsconfig with a non-empty `files` list decides the
entry file: the first element is returned verbatim, whatever the
include patterns, the probe oracle and the package manifest say. -/
theorem resolveEntryFileLocal_files_first_wins (t : RepoTree) (cfg : TsConfig)
    (f : String) (fs : List String) (h : t.tsconfig = some cfg)
    (hf : cfg.files = f :: fs) :
    resolveEntryFileLocal t = f := by
  simp [resolveEntryFileLocal, h, hf]

/-- C4 witness: `files: ["src/main.ts"]` wins against include
patterns whose probes all exist and against a package `main`. -/
theorem resolveEntryFileLocal_files_first_wins_witness :
    resolveEntryFileLocal
      { tsconfig := some { files := ["src/main.ts"], includes := ["lib"] }
        fileExists := fun _ => true
        pkgMain := some "dist/other.js" } = "src/main.ts" :=
  resolveEntryFileLocal_files_first_wins _ { files := ["src/main.ts"], includes := ["lib"] }
    "src/main.ts" [] rfl rfl

/-- The repository tree refuting C3 as stated: `include: ["./src"]`
and `src/index.ts` present (under either spelling of the path). -/
def dotSlashTree : RepoTree :=
  { tsconfig := some { files := [], includes := ["./src"] }
    fileExists := fun p => p == "src/index.ts" || p == "./src/index.ts"
    pkgMain := none }

/-- C3, counterexample: for the include pattern `./src` the step as
the claim describes it probes and returns `./src/index.ts`, but the
resolver additionally strips the leading `./` and returns
`src/index.ts`. -/
theorem resolveEntryFileLocal_strips_leading_dot_slash :
    includeStepClaim dotSlashTree.fileExists { files := [], includes := ["./src"] }
        = some "./src/index.ts" ∧
    resolveEntryFileLocal dotSlashTree = "src/index.ts" ∧
    ("src/index.ts" : String) ≠ "./src/index.ts" := by
  refine ⟨by decide, by decide, by decide⟩

/-- C3 (amended): with an empty `files` list and a non-empty include
list, the resolver derives a directory from the first include pattern
by stripping the portion from the first glob metacharacter onward, any
trailing path separators, *and a leading `./`*; if the directory is
empty nothing is probed and resolution falls through; otherwise
exactly `<dir>/index.ts` then `<dir>/main.ts` are probed, in that
order, and the first existing one is returned. -/
theorem resolveEntryFileLocal_include_step (t : RepoTree) (cfg : TsConfig)
    (inc : String) (tl : List String) (h : t.tsconfig = some cfg)
    (hf : cfg.files = []) (hinc : cfg.includes = inc :: tl) :
    resolveEntryFileLocal t =
      (if includeDirOf inc = "" then resolveFromPackage t
       else
         match firstExisting t.fileExists
             [includeDirOf inc ++ "/index.ts", includeDirOf inc ++ "/main.ts"] with
         | some c => c
         | none => resolveFromPackage t) := by
  by_cases hd : includeDirOf inc = ""
  · simp [resolveEntryFileLocal, h, hf, includeStepResult, hinc, hd]
  · cases hfe : firstExisting t.fileExists
        [includeDirOf inc ++ "/index.ts", includeDirOf inc ++ "/main.ts"] <;>
      simp [resolveEntryFileLocal, h, hf, includeStepResult, hinc, hd, hfe]

/-- C3 witness: `include: ["src/**"]` with only `src/main.ts` present
resolves to `src/main.ts` (the second and last probe). -/
theorem resolveEntryFileLocal_include_step_witness :
    resolveEntryFileLocal
      { tsconfig := some { files := [], includes := ["src/**"] }
        fileExists := fun p => p == "src/main.ts"
        pkgMain := none } = "src/main.ts" := by
  rw [resolveEntryFileLocal_include_step _ { files := [], includes := ["src/**"] }
    "src/**" [] rfl rfl rfl]
  decide

/-- C7: the resolver is total (a Lean function) and degrades to the
fixed fallback: when tsconfig is absent/unparseable or yields neither
a `files` entry nor an include-probe hit, and `package.json` is
absent, unparseable or has an empty `main`, it returns `index.js`. -/
theorem resolveEntryFileLocal_fallback_index_js (t : RepoTree)
    (hts : t.tsconfig = none ∨
      ∃ cfg, t.tsconfig = some cfg ∧ cfg.files = [] ∧
        includeStepResult t.fileExists cfg = none)
    (hpkg : t.pkgMain = none ∨ t.pkgMain = some "") :
    resolveEntryFileLocal t = FILE_PATH_INDEX_JS ∧
    resolveEntryFileLocal t = "index.js" := by
  have hp : resolveFromPackage t = "index.js" := by
    rcases hpkg with h | h <;> simp [resolveFromPackage, h, FILE_PATH_INDEX_JS]
  have hr : resolveEntryFileLocal t = "index.js" := by
    rcases hts with h | ⟨cfg, h1, h2, h3⟩
    · simp [resolveEntryFileLocal, h, hp]
    · simp [resolveEntryFileLocal, h1, h2, h3, hp]
  exact ⟨hr, hr⟩

/-- C7 witness: no configuration at all resolves to `index.js`. -/
theorem resolveEntryFileLocal_fallback_index_js_witness :
    resolveEntryFileLocal
      { tsconfig := none, fileExists := fun _ => false, pkgMain := none } = "index.js" :=
  (resolveEntryFileLocal_fallback_index_js
    { tsconfig := none, fileExists := fun _ => false, pkgMain := none }
    (Or.inl rfl) (Or.inl rfl)).2

/-- C5: code bug — on an unterminated block comment the skip loop of
`stripJSONComments` stops one byte early (`for i+1 < len(src)`), so
the final byte of the input leaks into the output instead of the whole
remainder being swallowed: stripping `/*x` yields `x`, not the empty
output the documented swallow-to-end-of-input policy prescribes. -/
theorem stripJSONComments_unterminated_leaks_last_byte :
    stripJSONComments "/*x".toList = "x".toList ∧
    stripJSONComments "/*x".toList ≠ [] := by
  exact ⟨by decide, by decide⟩

/-- C6: the stripper copies string literals byte-for-byte — tracking
escaped quotes and escaped backslashes — and `//` or `/*` inside a
string literal is never treated as a comment: a string literal with
well-formed interior `s` passes through unchanged, after which normal
stripping resumes. -/
theorem stripJSONComments_preserves_string_literals (s t : List Char)
    (h : validBody s = true) :
    stripJSONComments ('"' :: s ++ '"' :: t) = '"' :: s ++ '"' :: stripJSONComments t ∧
    stripInString (s ++ '"' :: t) = s ++ '"' :: stripJSONComments t := by
  have hc : stripInString (s ++ '"' :: t) = s ++ '"' :: stripJC t :=
    stripInString_copies s t h
  have h1 : stripJSONComments ('"' :: s ++ '"' :: t)
      = '"' :: stripInString (s ++ '"' :: t) := by
    simp [stripJSONComments, stripJC]
  exact ⟨by rw [h1, hc]; rfl, hc⟩

/-- C6 witness: the literal `"a//b/*c"` — containing both comment
openers — survives stripping unchanged. -/
theorem stripJSONComments_preserves_string_literals_witness :
    validBody "a//b/*c".toList = true ∧
    stripJSONComments ('"' :: "a//b/*c".toList ++ '"' :: "d".toList)
      = '"' :: "a//b/*c".toList ++ '"' :: stripJSONComments "d".toList :=
  ⟨by decide,
    (stripJSONComments_preserves_string_literals "a//b/*c".toList "d".toList (by decide)).1⟩

/-- C8: on already-comment-free input the stripper is the identity,
hence stripping twice equals stripping once. -/
theorem stripJSONComments_idempotent_on_comment_free (l : List Char)
    (h : commentFree l = true) :
    stripJSONComments l = l ∧
    stripJSONComments (stripJSONComments l) = stripJSONComments l := by
  have h1 : stripJSONComments l = l := strip_modes_id.1 l h
  exact ⟨h1, by rw [h1]; exact h1⟩

/-- C8 witness: a comment-free document whose string literal contains
`//`. -/
theorem stripJSONComments_idempotent_on_comment_free_witness :
    commentFree "[\"a//b\", 1]".toList = true ∧
    stripJSONComments "[\"a//b\", 1]".toList = "[\"a//b\", 1]".toList :=
  ⟨by decide,
    (stripJSONComments_idempotent_on_comment_free "[\"a//b\", 1]".toList (by decide)).1⟩

end Bazaar
